import Mathlib

/-!
Shallow embedding of the statement-resolution and coordinate-deduplication
core of the ProbeGenerator repository
(`probe_generator/gene_snp_probe.py` and `probe_generator/print_probes.py`),
together with theorems settling the frozen claims about it.

Strings are embedded as `List Char`, Python integers as `Int`, and the
fallible collaborator calls as `Option`/`Except` values.  External
collaborator modules that are not under `src/` (`probe_generator.sequence`,
`probe_generator.transcript`, `probe_generator.annotation`,
`probe_generator.reference`) are modelled from the spec as structures and
function parameters, as noted in the individual doc comments.
-/

/-! ### Character classes of the statement regex `_STATEMENT_REGEX` (gene_snp_probe.py lines 13-33)

The regex is, in VERBOSE form (gene class: letters, digits, underscore,
dot, slash, hyphen):
`\s* (gene)+ \s* : \s* c\. ([0-9]+) \s* ([ACGTacgt]) \s* > \s*
([ACGTacgt]) \s* slash \s* ([0-9]+) \s* (--.*|\s*)`
compiled without a trailing anchor and applied with `re.match`, i.e. it
matches a PREFIX of the input line.  Python `\s` on ASCII input is the set
modelled by `isWsChar`. -/

def isWsChar (c : Char) : Bool :=
  c = ' ' || c = '\t' || c = '\n' || c = '\r' || c = '\x0b' || c = '\x0c'

def isGeneChar (c : Char) : Bool :=
  c.isAlpha || c.isDigit || c = '_' || c = '.' || c = '/' || c = '-'

def isDigitChar (c : Char) : Bool :=
  c.isDigit

def isBaseLetter (c : Char) : Bool :=
  c = 'A' || c = 'C' || c = 'G' || c = 'T' || c = 'a' || c = 'c' || c = 'g' || c = 't'

/-- One-or-more repetition of a character class: the greedy (maximal-munch)
token, failing when empty.  Because every class in `_STATEMENT_REGEX` is
disjoint from the character required next, greedy matching is equivalent to
the regex's backtracking semantics here. -/
def takeTok (p : Char → Bool) (l : List Char) : Option (List Char × List Char) :=
  let tok := l.takeWhile p
  if tok.isEmpty then none else some (tok, l.dropWhile p)

/-- A single literal character of the regex. -/
def expectCh (c : Char) (l : List Char) : Option (List Char) :=
  match l with
  | x :: rest => if x = c then some rest else none
  | [] => none

/-- A single character from a class (the `([ACGTacgt])` groups). -/
def takeOne (p : Char → Bool) (l : List Char) : Option (Char × List Char) :=
  match l with
  | x :: rest => if p x then some (x, rest) else none
  | [] => none

/-- The captured groups of `_STATEMENT_REGEX`. -/
structure RawGroups where
  gene : List Char
  base_digits : List Char
  reference : Char
  mutation : Char
  bases_digits : List Char
  comment : List Char
deriving DecidableEq

/-- The final `(--.*|\s*)` group: after the preceding greedy `\s*` has
consumed all whitespace, the first alternative matches `--` followed by the
rest of the line up to a newline, and otherwise the second alternative
matches the empty string. -/
def commentOf (l : List Char) : List Char :=
  match l with
  | '-' :: '-' :: rest => '-' :: '-' :: rest.takeWhile (fun c => c != '\n')
  | _ => []

/-- Deterministic equivalent of `_STATEMENT_REGEX.match`, the regex applied
as a prefix match (`re.match` has no end anchor, so any text after the
matched prefix is ignored). -/
def matchStatement (l : List Char) : Option RawGroups := do
  let l := l.dropWhile isWsChar
  let (gene, l) ← takeTok isGeneChar l
  let l := l.dropWhile isWsChar
  let l ← expectCh ':' l
  let l := l.dropWhile isWsChar
  let l ← expectCh 'c' l
  let l ← expectCh '.' l
  let (d1, l) ← takeTok isDigitChar l
  let l := l.dropWhile isWsChar
  let (ref, l) ← takeOne isBaseLetter l
  let l := l.dropWhile isWsChar
  let l ← expectCh '>' l
  let l := l.dropWhile isWsChar
  let (mletter, l) ← takeOne isBaseLetter l
  let l := l.dropWhile isWsChar
  let l ← expectCh '/' l
  let l := l.dropWhile isWsChar
  let (d2, l) ← takeTok isDigitChar l
  let l := l.dropWhile isWsChar
  pure ⟨gene, d1, ref, mletter, d2, commentOf l⟩

/-- Python `int` applied to a string of decimal digits. -/
def int_of_digits (l : List Char) : Int :=
  l.foldl (fun a c => 10 * a + ((c.toNat - '0'.toNat : Nat) : Int)) 0

/-- The partial specification returned by `_parse` (gene_snp_probe.py lines
127-132): the mutation group is a single letter in the grammar but is stored
as a string, which `explode` later reverse-complements. -/
structure ParsedSpec where
  gene : List Char
  base : Int
  reference : Char
  mutation : List Char
  bases : Int
  comment : List Char
deriving DecidableEq

/-- Translation of `_parse` (gene_snp_probe.py lines 110-132): `none` models the raised
`InvalidStatement`. -/
def _parse (statement : List Char) : Option ParsedSpec :=
  (matchStatement statement).map fun g =>
    ⟨g.gene, int_of_digits g.base_digits, g.reference, [g.mutation],
     int_of_digits g.bases_digits, g.comment⟩


/-! ### The function `reverse_complement` (print_probes.py lines 14-21)

`str.translate(_COMPLEMENT)` maps the eight nucleotide letters to their
complements and leaves every other character unchanged; `reversed` then
reverses the string.  `probe_generator.sequence.reverse_complement`
(imported by gene_snp_probe.py but not under `src/`) is modelled from the
spec as the same standard reverse complement. -/

def _COMPLEMENT (c : Char) : Char :=
  if c = 'a' then 't' else if c = 'c' then 'g'
  else if c = 'g' then 'c' else if c = 't' then 'a'
  else if c = 'A' then 'T' else if c = 'C' then 'G'
  else if c = 'G' then 'C' else if c = 'T' then 'A'
  else c

def reverse_complement (s : List Char) : List Char :=
  (s.map _COMPLEMENT).reverse

/-- The nucleotide alphabet named by the claims about `reverse_complement`. -/
def nucLetters : List Char :=
  ['a', 'c', 'g', 't', 'A', 'C', 'G', 'T']

/-! ### Ranges: `SequenceRange` and the resolved probe specification

`probe_generator.sequence.SequenceRange` is not under `src/`.  Modelled from
the spec (§3 GenomicRange): a half-open genomic interval
`(chromosome, start, end)` with the optional flags `isMutationSite` and
`reverseComplement`; `get_ranges` unpacks a `SequenceRange` as the 5-tuple
`chromosome, start, end, _, _`, and `explode` uses `index.start`.  The
Python `end` field is named `stop` here because `end` is a Lean keyword. -/

structure SequenceRange where
  chromosome : List Char
  start : Int
  stop : Int
  mutation : Bool
  reverse_complement : Bool
deriving DecidableEq

/-- The fully resolved specification dictionary built by
`GeneSnpProbe.explode` (gene_snp_probe.py lines 100-105): the `_parse`
fields plus `strand`, `chromosome`, `transcript`, `index` and
`index_base`. -/
structure ResolvedSpec where
  gene : List Char
  base : Int
  reference : Char
  mutation : List Char
  bases : Int
  comment : List Char
  strand : Char
  chromosome : List Char
  transcript : List Char
  index : SequenceRange
  index_base : Int
deriving DecidableEq

/-- Translation of `GeneSnpProbe.get_ranges` (gene_snp_probe.py lines 44-67).  Python `//`
and `%` are floor division and floor modulus, i.e. `Int.fdiv`/`Int.fmod`.
The chromosome unpacked from `index` is immediately shadowed by
`spec['chromosome']`, exactly as in the source. -/
def get_ranges (spec : ResolvedSpec) : SequenceRange × SequenceRange × SequenceRange :=
  let chromosome := spec.index.chromosome
  let start := spec.index.start
  let stop := spec.index.stop
  let bases := spec.bases
  let chromosome := spec.chromosome
  let mutation_bases : Int := (spec.mutation.length : Int)
  let left_buffer := Int.fdiv bases 2
  let left_buffer := if Int.fmod bases 2 = 0 then left_buffer - 1 else left_buffer
  let right_buffer := bases - left_buffer - mutation_bases
  (⟨chromosome, start - left_buffer, start, false, false⟩,
   ⟨chromosome, start, stop, true, spec.strand == '-'⟩,
   ⟨chromosome, stop, stop + right_buffer, false, false⟩)

/-- The `leftBuffer` formula as the spec words it: `bases // 2`, decremented
by 1 when `bases` is even.  Stated separately from `get_ranges` so that the
theorem for the claim compares the code against the spec's formula. -/
def leftBufferSpec (bases : Int) : Int :=
  if Int.fmod bases 2 = 0 then Int.fdiv bases 2 - 1 else Int.fdiv bases 2

/-! ### The transcript fan-out of `GeneSnpProbe.explode`

`probe_generator.transcript` and `probe_generator.annotation` are not under
`src/`.  Modelled from the spec (§2, §3, §6): a `Transcript` exposes `name`,
`chromosome`, `plus_strand` and the fallible mapping
`nucleotide_index : codingPosition -> SequenceRange`, where `none` models a
raised `OutOfRange`; `annotation.lookup_gene` maps a gene symbol over the
annotation rows to the (possibly empty) list of matching transcripts, in
annotation order. -/

structure Transcript where
  name : List Char
  chromosome : List Char
  plus_strand : Bool
  nucleotide_index : Int → Option SequenceRange

/-- Modelled from the spec: one row of the combined genome annotation,
carrying the gene symbol it is indexed under and its transcript. -/
structure AnnRow where
  gene : List Char
  txt : Transcript

/-- Modelled from the spec: `annotation.lookup_gene` returns the transcripts
of the rows whose gene symbol matches, in annotation order; on an empty
annotation it returns the empty list. -/
def lookup_gene (gene : List Char) (rows : List AnnRow) : List Transcript :=
  (rows.filter (fun r => r.gene == gene)).map AnnRow.txt

/-- The diagnostic printed to stderr on `OutOfRange`
(gene_snp_probe.py lines 94-95): `"{error} in statement: {statement!r}"`.
Modelled from the spec (§4.2): the `OutOfRange` error message carries the
failing transcript's context, so the payload is the transcript name and the
statement. -/
structure Diag where
  txtName : List Char
  statement : List Char
deriving DecidableEq

/-- The loop body of `GeneSnpProbe.explode` (gene_snp_probe.py lines
86-106), with the loop state made explicit: `mutation` is the current value
of `partial_spec["mutation"]` — the source mutates the dictionary in place,
so a minus-strand transcript's reverse-complement persists into later
iterations — and `cache` is `cached_coordinates`.  Returns the probe
specifications together with the printed diagnostics. -/
def explodeGo (statement : List Char) (pspec : ParsedSpec) (mutation : List Char)
    (cache : List (List Char × SequenceRange)) (ts : List Transcript) :
    List ResolvedSpec × List Diag :=
  match ts with
  | [] => ([], [])
  | txt :: rest =>
    let base := pspec.base
    let mutation := if txt.plus_strand then mutation else reverse_complement mutation
    match txt.nucleotide_index base with
    | none =>
      let out := explodeGo statement pspec mutation cache rest
      (out.1, ⟨txt.name, statement⟩ :: out.2)
    | some index =>
      let chromosome := txt.chromosome
      if (chromosome, index) ∈ cache then
        explodeGo statement pspec mutation cache rest
      else
        let spec : ResolvedSpec :=
          { gene := pspec.gene
            base := pspec.base
            reference := pspec.reference
            mutation := mutation
            bases := pspec.bases
            comment := pspec.comment
            strand := if txt.plus_strand then '+' else '-'
            chromosome := chromosome
            transcript := txt.name
            index := index
            index_base := index.start + 1 }
        let out := explodeGo statement pspec mutation ((chromosome, index) :: cache) rest
        (spec :: out.1, out.2)

/-- Translation of `GeneSnpProbe.explode` (gene_snp_probe.py lines 69-107): `none` models a
propagated `InvalidStatement`; a `none` annotation argument is replaced by
the empty annotation, exactly as in the source. -/
def explode (statement : List Char) (genome_ann : Option (List AnnRow)) :
    Option (List ResolvedSpec × List Diag) :=
  let ann := genome_ann.getD []
  match _parse statement with
  | none => none
  | some pspec =>
    let transcripts := lookup_gene pspec.gene ann
    some (explodeGo statement pspec pspec.mutation [] transcripts)

/-- The transcript-derived projection of a resolved probe: the metadata the
dedup and first-occurrence claims are about (name, strand, chromosome,
resolved index), independent of the accumulated mutation string. -/
structure ProbeView where
  name : List Char
  strand : Char
  chromosome : List Char
  index : SequenceRange
deriving DecidableEq

def proj (r : ResolvedSpec) : ProbeView :=
  ⟨r.transcript, r.strand, r.chromosome, r.index⟩

/-- What a single transcript contributes before deduplication: `none` when
`nucleotide_index` fails with `OutOfRange`. -/
def resolveItem (base : Int) (t : Transcript) : Option ProbeView :=
  (t.nucleotide_index base).map fun sr =>
    ⟨t.name, if t.plus_strand then '+' else '-', t.chromosome, sr⟩

def coordOf (v : ProbeView) : List Char × SequenceRange :=
  (v.chromosome, v.index)

/-- First-occurrence deduplication on `(chromosome, index)`, the reference
behaviour of the `cached_coordinates` set in `explode`. -/
def dedupCoords (cache : List (List Char × SequenceRange)) :
    List ProbeView → List ProbeView
  | [] => []
  | x :: xs =>
    if coordOf x ∈ cache then dedupCoords cache xs
    else x :: dedupCoords (coordOf x :: cache) xs

/-! ### Canonical keys: `dict_hash` (print_probes.py lines 175-181)

`hash(tuple(sorted(dictionary.items())))`: the dictionary items are sorted
(tuples compare by key first; dictionary keys are distinct, so values are
never compared) and the sorted tuple is hashed.  Python's `hash` is a fixed
function of the sorted tuple, so equal sorted tuples have equal hashes; the
canonical key is therefore modelled as the sorted item list itself.  Values
of the coordinate dictionaries are strings, integers or booleans. -/

inductive PyVal
  | s (v : String)
  | i (v : Int)
  | b (v : Bool)
deriving DecidableEq

def dict_hash (d : List (List Char × PyVal)) : List (List Char × PyVal) :=
  List.insertionSort (fun a b => a.1 ≤ b.1) d

/-! ### Sequences: `get_sequences` (print_probes.py lines 145-172) and its collaborators

`sequence.sequence_range`, `reference.bases` and the pieces of `probe_name`
are external collaborators not under `src/`; they enter as function
parameters (`seqRange`, `genome`, `nameFn`).  `Except.error` models the
raised `NoFeatureError` (from the sequence module) and `MissingChromosome`
(from the reference module), the two exception types caught by the
`try/except` in `get_sequences`. -/

inductive SeqErr
  | noFeature
  | missingChromosome
deriving DecidableEq

/-- The coordinate dictionary consumed by `bases_from_coordinate`
(print_probes.py lines 59-77), with the keys that function reads. -/
structure Coordinate where
  chromosome1 : String
  start1 : Int
  end1 : Int
  chromosome2 : String
  start2 : Int
  end2 : Int
  rc_side_1 : Bool
  rc_side_2 : Bool
deriving DecidableEq

/-- The items of the coordinate dictionary, as fed to `dict_hash`. -/
def Coordinate.items (c : Coordinate) : List (List Char × PyVal) :=
  [("chromosome1".toList, .s c.chromosome1), ("start1".toList, .i c.start1),
   ("end1".toList, .i c.end1), ("chromosome2".toList, .s c.chromosome2),
   ("start2".toList, .i c.start2), ("end2".toList, .i c.end2),
   ("rc_side_1".toList, .b c.rc_side_1), ("rc_side_2".toList, .b c.rc_side_2)]

/-- Translation of `bases_from_coordinate` (print_probes.py lines 59-77): fetch both sides
from the reference genome, reverse-complement the flagged sides, and
concatenate. -/
def bases_from_coordinate (coordinate : Coordinate)
    (genome : String → Int → Int → Except SeqErr (List Char)) :
    Except SeqErr (List Char) := do
  let first_bases ← genome coordinate.chromosome1 coordinate.start1 coordinate.end1
  let second_bases ← genome coordinate.chromosome2 coordinate.start2 coordinate.end2
  let first_bases := if coordinate.rc_side_1 then reverse_complement first_bases else first_bases
  let second_bases := if coordinate.rc_side_2 then reverse_complement second_bases else second_bases
  pure (first_bases ++ second_bases)

/-- The observable events of the `get_sequences` generator: a yielded
`(name, bases)` pair, the `"... Skipping..."` stderr line printed when a
`NoFeatureError`/`MissingChromosome` is caught, and the
`"... appears to be redundant. Skipping..."` stderr line. -/
inductive GsEvent
  | out (name : List Char) (bases : List Char)
  | skipDiag (e : SeqErr)
  | redundantDiag
deriving DecidableEq

/-- Translation of `get_sequences` (print_probes.py lines 145-172), with
Python's local-variable semantics made explicit.  The `except` clause has no
`continue`, so after a caught error control falls through to
`dict_hash(coordinate)` with `coordinate` and `bases` still holding their
values from the previous loop iteration — `none` when no iteration has
assigned them yet, in which case Python raises `NameError` (an unhandled,
fatal error, modelled by the `true` flag that ends the event stream). -/
def get_sequences {α β : Type}
    (seqRange : α → β → β → Except SeqErr Coordinate)
    (genome : String → Int → Int → Except SeqErr (List Char))
    (nameFn : α → Coordinate → β → β → List Char)
    (cached_coords : List (List (List Char × PyVal)))
    (coordinate : Option Coordinate) (bases : Option (List Char)) :
    List (α × β × β) → List GsEvent × Bool
  | [] => ([], false)
  | (spec, left_row, right_row) :: rest =>
    let tryRes : Option SeqErr × Option Coordinate × Option (List Char) :=
      match seqRange spec left_row right_row with
      | .error e => (some e, coordinate, bases)
      | .ok c =>
        match bases_from_coordinate c genome with
        | .error e => (some e, some c, bases)
        | .ok b => (none, some c, some b)
    let diags : List GsEvent :=
      match tryRes.1 with
      | some e => [.skipDiag e]
      | none => []
    match tryRes.2.1 with
    | none => (diags, true)
    | some c =>
      let coord_hash := dict_hash c.items
      if coord_hash ∈ cached_coords then
        let out := get_sequences seqRange genome nameFn cached_coords tryRes.2.1 tryRes.2.2 rest
        (diags ++ GsEvent.redundantDiag :: out.1, out.2)
      else
        match tryRes.2.2 with
        | none => (diags, true)
        | some b =>
          let out := get_sequences seqRange genome nameFn (coord_hash :: cached_coords)
            tryRes.2.1 tryRes.2.2 rest
          (diags ++ GsEvent.out (nameFn spec c left_row right_row) b :: out.1, out.2)

/-! ## Theorems -/

/-- C1: `get_ranges` computes `leftBuffer = bases // 2`, decremented by 1
when `bases` is even, and `rightBuffer = bases - leftBuffer - mutationBases`,
so `leftBuffer + mutationBases + rightBuffer == bases` for every `bases` and
every mutation length (in particular for every even/odd `bases` and
`mutationBases` in {1,2,3}); the three returned ranges are the left flank
`[start - leftBuffer, start)`, the mutation site `[start, end)` flagged as
the mutation site and for reverse complement iff the strand is minus, and
the right flank `[end, end + rightBuffer)`. -/
theorem get_ranges_flanks_and_invariant (spec : ResolvedSpec) :
    get_ranges spec =
      (⟨spec.chromosome, spec.index.start - leftBufferSpec spec.bases, spec.index.start,
        false, false⟩,
       ⟨spec.chromosome, spec.index.start, spec.index.stop, true, spec.strand == '-'⟩,
       ⟨spec.chromosome, spec.index.stop,
        spec.index.stop + (spec.bases - leftBufferSpec spec.bases - (spec.mutation.length : Int)),
        false, false⟩) ∧
    leftBufferSpec spec.bases + (spec.mutation.length : Int) +
      (spec.bases - leftBufferSpec spec.bases - (spec.mutation.length : Int)) = spec.bases := by
  refine ⟨?_, by ring⟩
  by_cases h : Int.fmod spec.bases 2 = 0 <;> simp [get_ranges, leftBufferSpec, h]

/-- Helper for the involution claim: the character complement table is an
involution on the nucleotide alphabet. -/
theorem complement_complement_of_mem {c : Char} (hc : c ∈ nucLetters) :
    _COMPLEMENT (_COMPLEMENT c) = c := by
  simp only [nucLetters, List.mem_cons, List.not_mem_nil, or_false] at hc
  rcases hc with rfl | rfl | rfl | rfl | rfl | rfl | rfl | rfl <;> rfl

/-- C9: `reverse_complement` is an involution on strings over the alphabet
`acgtACGT`, and a single application preserves length. -/
theorem reverse_complement_involution (s : List Char) (h : ∀ c ∈ s, c ∈ nucLetters) :
    reverse_complement (reverse_complement s) = s ∧
    (reverse_complement s).length = s.length := by
  constructor
  · simp only [reverse_complement, List.map_reverse, List.reverse_reverse, List.map_map]
    have h2 : s.map (_COMPLEMENT ∘ _COMPLEMENT) = s.map id :=
      List.map_congr_left (fun c hc => complement_complement_of_mem (h c hc))
    simpa using h2
  · simp [reverse_complement]

/-- Witness for C9 at a concrete input. -/
theorem reverse_complement_involution_witness :
    reverse_complement (reverse_complement ['A', 'C', 'G', 'T']) = ['A', 'C', 'G', 'T'] ∧
    (reverse_complement ['A', 'C', 'G', 'T']).length = (['A', 'C', 'G', 'T'] : List Char).length :=
  reverse_complement_involution ['A', 'C', 'G', 'T'] (by decide)

/-- Counterexample for C8: the grammar accepts `ABC:c.0A>G/0`, whose parsed
`base` and `bases` are both `0`, so they are not positive integers. -/
theorem parse_accepts_zero_counterexample :
    (_parse ("ABC:c.0A>G/0".toList)).isSome = true ∧
    Option.map (fun s => (s.base, s.bases)) (_parse ("ABC:c.0A>G/0".toList)) =
      some (0, 0) := by
  refine ⟨by decide, by decide⟩

/-- Helper: Python `int` of a digit string is nonnegative. -/
theorem int_of_digits_nonneg (l : List Char) : 0 ≤ int_of_digits l := by
  suffices h : ∀ (l : List Char) (a : Int), 0 ≤ a →
      0 ≤ l.foldl (fun a c => 10 * a + ((c.toNat - '0'.toNat : Nat) : Int)) a by
    exact h l 0 le_rfl
  intro l
  induction l with
  | nil => intro a ha; simpa using ha
  | cons c t ih =>
    intro a ha
    simp only [List.foldl_cons]
    refine ih _ ?_
    have hc : (0 : Int) ≤ ((c.toNat - '0'.toNat : Nat) : Int) := Int.natCast_nonneg _
    omega

/-- C8 (amended): for every statement accepted by the gene SNP grammar, the
parsed `base` and `bases` fields are nonnegative integers (the grammar also
accepts the digit string `0`, so strict positivity does not hold). -/
theorem parse_base_bases_nonneg (l : List Char) (spec : ParsedSpec)
    (h : _parse l = some spec) : 0 ≤ spec.base ∧ 0 ≤ spec.bases := by
  rcases Option.map_eq_some'.mp h with ⟨g, _, rfl⟩
  exact ⟨int_of_digits_nonneg _, int_of_digits_nonneg _⟩

/-- Witness for C8's amended theorem at a concrete accepted statement. -/
theorem parse_base_bases_nonneg_witness :
    0 ≤ (⟨"ABC".toList, 100, 'A', ['G'], 50, []⟩ : ParsedSpec).base ∧
    0 ≤ (⟨"ABC".toList, 100, 'A', ['G'], 50, []⟩ : ParsedSpec).bases :=
  parse_base_bases_nonneg ("ABC:c.100A>G/50".toList) _ (by decide)

/-- C2 (code bug evidence): `explode` mutates `partial_spec["mutation"]` in
place, so the reverse-complement state accumulates across the transcript
fan-out.  For the statement `AB:c.1A>G/7` and two minus-strand transcripts
at distinct coordinates, the first emitted probe carries mutation `C`
(= reverse complement of the literal `G`, as the spec demands), but the
second carries the literal `G` again — the reverse complement was re-applied
to the already-complemented state, contradicting the per-transcript strand
law. -/
theorem explode_mutation_rc_cumulative :
    (explode ("AB:c.1A>G/7".toList)
        (some
          [⟨"AB".toList,
            ⟨"T1".toList, "chr1".toList, false,
             fun b => if b = 1 then some ⟨"chr1".toList, 100, 101, false, false⟩ else none⟩⟩,
           ⟨"AB".toList,
            ⟨"T2".toList, "chr2".toList, false,
             fun b => if b = 1 then some ⟨"chr2".toList, 200, 201, false, false⟩ else none⟩⟩])).map
      (fun r => r.1.map ResolvedSpec.mutation) = some [['C'], ['G']] ∧
    reverse_complement ['G'] = ['C'] := by
  exact ⟨by rfl, by rfl⟩

/-- C10: with the annotation argument omitted (`None`), `explode` on a
well-formed statement does not fail: the gene lookup over the empty
annotation finds no transcripts and the empty probe list (and no
diagnostics) is returned. -/
theorem explode_none_ann (st : List Char) (pspec : ParsedSpec)
    (h : _parse st = some pspec) : explode st none = some ([], []) := by
  simp [explode, h, lookup_gene, explodeGo]

/-- Witness for C10 at a concrete well-formed statement. -/
theorem explode_none_ann_witness :
    explode ("ABC:c.100A>G/50".toList) none = some ([], []) :=
  explode_none_ann ("ABC:c.100A>G/50".toList)
    ⟨"ABC".toList, 100, 'A', ['G'], 50, []⟩ (by decide)

/-- C7: the canonicalization used for deduplication is order-independent —
for two dictionaries with exactly the same key-value pairs (in any order,
with dictionary-distinct keys), `dict_hash` produces the same canonical
key. -/
theorem dict_hash_order_independent (d₁ d₂ : List (List Char × PyVal))
    (hperm : d₁.Perm d₂) (hnodup : (d₁.map Prod.fst).Nodup) :
    dict_hash d₁ = dict_hash d₂ := by
  have htot : IsTotal (List Char × PyVal) (fun a b => a.1 ≤ b.1) :=
    ⟨fun a b => le_total a.1 b.1⟩
  have htrans : IsTrans (List Char × PyVal) (fun a b => a.1 ≤ b.1) :=
    ⟨fun _ _ _ hab hbc => le_trans hab hbc⟩
  have hs₁ : List.Sorted (fun a b => a.1 ≤ b.1) (dict_hash d₁) :=
    List.sorted_insertionSort _ d₁
  have hs₂ : List.Sorted (fun a b => a.1 ≤ b.1) (dict_hash d₂) :=
    List.sorted_insertionSort _ d₂
  have hp₁ : (dict_hash d₁).Perm d₁ := List.perm_insertionSort _ d₁
  have hp₂ : (dict_hash d₂).Perm d₂ := List.perm_insertionSort _ d₂
  have hperm' : (dict_hash d₁).Perm (dict_hash d₂) :=
    hp₁.trans (hperm.trans hp₂.symm)
  have hnd₁ : ((dict_hash d₁).map Prod.fst).Nodup :=
    ((hp₁.map Prod.fst).nodup_iff).mpr hnodup
  have hnd₂ : ((dict_hash d₂).map Prod.fst).Nodup :=
    ((hperm'.map Prod.fst).nodup_iff).mp hnd₁
  have hlt₁ : List.Sorted (fun a b : List Char × PyVal => a.1 < b.1) (dict_hash d₁) := by
    have hne := (List.pairwise_map.mp hnd₁)
    exact (hs₁.and hne).imp (fun h => lt_of_le_of_ne h.1 h.2)
  have hlt₂ : List.Sorted (fun a b : List Char × PyVal => a.1 < b.1) (dict_hash d₂) := by
    have hne := (List.pairwise_map.mp hnd₂)
    exact (hs₂.and hne).imp (fun h => lt_of_le_of_ne h.1 h.2)
  have hanti : IsAntisymm (List Char × PyVal) (fun a b => a.1 < b.1) :=
    ⟨fun _ _ h1 h2 => absurd h2 (not_lt_of_lt h1)⟩
  exact List.eq_of_perm_of_sorted hperm' hlt₁ hlt₂

/-- Witness for C7: two two-entry coordinate dictionaries with the same
items in opposite insertion orders canonicalize identically. -/
theorem dict_hash_order_independent_witness :
    dict_hash [("start1".toList, PyVal.i 1), ("chromosome1".toList, PyVal.s "chr1")] =
      dict_hash [("chromosome1".toList, PyVal.s "chr1"), ("start1".toList, PyVal.i 1)] :=
  dict_hash_order_independent _ _ (List.Perm.swap _ _ _) (by decide)

/-- C4 (code bug evidence): the `except` clause of `get_sequences` has no
`continue`, so a caught `MissingChromosome`/`NoFeatureError` does not skip
the statement.  First conjunct: with two statements where the second one's
bases lookup fails (its second side names an absent chromosome), the
generator prints the skip diagnostic but then still yields the second
probe's name paired with the FIRST statement's stale bases — an incorrect
sequence is emitted instead of the probe being skipped.  Second conjunct:
when the very first statement fails, the stale locals are unbound and the
fall-through raises `NameError`, which is fatal to the run. -/
theorem get_sequences_fallthrough_bug :
    get_sequences
        (fun sp _ _ => if sp = 0 then Except.ok ⟨"chr1", 0, 2, "chr1", 2, 4, false, false⟩
          else if sp = 1 then Except.ok ⟨"chr1", 0, 2, "chrX", 2, 4, false, false⟩
          else Except.error SeqErr.missingChromosome)
        (fun chrom _ _ => if chrom = "chr1" then Except.ok ['A', 'C']
          else Except.error SeqErr.missingChromosome)
        (fun sp _ _ _ => if sp = 0 then ['n', '1'] else ['n', '2'])
        [] none none [((0 : Nat), (0 : Nat), (0 : Nat)), (1, 0, 0)] =
      ([GsEvent.out ['n', '1'] ['A', 'C', 'A', 'C'],
        GsEvent.skipDiag SeqErr.missingChromosome,
        GsEvent.out ['n', '2'] ['A', 'C', 'A', 'C']], false) ∧
    get_sequences
        (fun sp _ _ => if sp = 0 then Except.ok ⟨"chr1", 0, 2, "chr1", 2, 4, false, false⟩
          else if sp = 1 then Except.ok ⟨"chr1", 0, 2, "chrX", 2, 4, false, false⟩
          else Except.error SeqErr.missingChromosome)
        (fun chrom _ _ => if chrom = "chr1" then Except.ok ['A', 'C']
          else Except.error SeqErr.missingChromosome)
        (fun sp _ _ _ => if sp = 0 then ['n', '1'] else ['n', '2'])
        [] none none [((2 : Nat), (0 : Nat), (0 : Nat))] =
      ([GsEvent.skipDiag SeqErr.missingChromosome], true) := by
  exact ⟨by rfl, by rfl⟩

/-- Helper: the transcript-derived projection of `explode`'s loop output is
exactly first-occurrence deduplication over the per-transcript resolutions —
the accumulated mutation state affects only the `mutation` field, never
which probes are emitted nor their transcript metadata. -/
theorem explodeGo_fst_map_proj (statement : List Char) (pspec : ParsedSpec) :
    ∀ (ts : List Transcript) (mutation : List Char)
      (cache : List (List Char × SequenceRange)),
    (explodeGo statement pspec mutation cache ts).1.map proj =
      dedupCoords cache (ts.filterMap (resolveItem pspec.base)) := by
  intro ts
  induction ts with
  | nil => intro mutation cache; rfl
  | cons txt rest ih =>
    intro mutation cache
    simp only [explodeGo, List.filterMap_cons]
    cases hni : txt.nucleotide_index pspec.base with
    | none => simp [resolveItem, hni, ih]
    | some index =>
      by_cases hmem : (txt.chromosome, index) ∈ cache
      · simp [resolveItem, hni, dedupCoords, coordOf, hmem, ih]
      · simp [resolveItem, hni, dedupCoords, coordOf, hmem, ih, proj]

/-- Helper: the diagnostics printed by `explode`'s loop are exactly one
`OutOfRange` report per failing transcript, in order. -/
theorem explodeGo_snd (statement : List Char) (pspec : ParsedSpec) :
    ∀ (ts : List Transcript) (mutation : List Char)
      (cache : List (List Char × SequenceRange)),
    (explodeGo statement pspec mutation cache ts).2 =
      (ts.filter (fun t => (t.nucleotide_index pspec.base).isNone)).map
        (fun t => (⟨t.name, statement⟩ : Diag)) := by
  intro ts
  induction ts with
  | nil => intro mutation cache; rfl
  | cons txt rest ih =>
    intro mutation cache
    simp only [explodeGo, List.filter_cons]
    cases hni : txt.nucleotide_index pspec.base with
    | none => simp [hni, ih]
    | some index =>
      by_cases hmem : (txt.chromosome, index) ∈ cache
      · simp [hni, hmem, ih]
      · simp [hni, hmem, ih]

/-- Helper: coordinates already in the cache are never emitted by the
deduplication pass. -/
theorem dedupCoords_filter_of_mem (c : List Char × SequenceRange) :
    ∀ (xs : List ProbeView) (cache : List (List Char × SequenceRange)),
    c ∈ cache →
    (dedupCoords cache xs).filter (fun v => coordOf v == c) = [] := by
  intro xs
  induction xs with
  | nil => intro cache _; rfl
  | cons x xs ih =>
    intro cache hc
    simp only [dedupCoords]
    by_cases hx : coordOf x ∈ cache
    · simp only [if_pos hx]; exact ih cache hc
    · have hne : (coordOf x == c) = false :=
        beq_eq_false_iff_ne.mpr (fun h => hx (h ▸ hc))
      simp [if_neg hx, List.filter_cons, hne, ih _ (List.mem_cons_of_mem _ hc)]

/-- Helper: for an unseen coordinate, the deduplicated output restricted to
that coordinate is the first matching input item. -/
theorem dedupCoords_filter_take (c : List Char × SequenceRange) :
    ∀ (xs : List ProbeView) (cache : List (List Char × SequenceRange)),
    c ∉ cache →
    (dedupCoords cache xs).filter (fun v => coordOf v == c) =
      (xs.filter (fun v => coordOf v == c)).take 1 := by
  intro xs
  induction xs with
  | nil => intro cache _; rfl
  | cons x xs ih =>
    intro cache hc
    by_cases hx : coordOf x ∈ cache
    · have hne : coordOf x ≠ c := fun h => hc (h ▸ hx)
      simp only [dedupCoords, if_pos hx, List.filter_cons, beq_iff_eq]
      simp [hne, ih cache hc]
    · by_cases hxc : coordOf x = c
      · subst hxc
        have h0 := dedupCoords_filter_of_mem (coordOf x) xs (coordOf x :: cache)
          (List.mem_cons_self _ _)
        simp [dedupCoords, if_neg hx, List.filter_cons, h0]
      · have hne : (coordOf x == c) = false := beq_eq_false_iff_ne.mpr hxc
        have hne2 : c ∉ coordOf x :: cache := by
          simp only [List.mem_cons, not_or]
          exact ⟨fun h => hxc h.symm, hc⟩
        simp [dedupCoords, if_neg hx, List.filter_cons, hne, ih _ hne2]

/-- Helper: `take 1` of a filtered list is the first match found by
`find?`. -/
theorem filter_take_one_eq_find {α : Type} (p : α → Bool) :
    ∀ l : List α, (l.filter p).take 1 = (l.find? p).elim [] (fun a => [a]) := by
  intro l
  induction l with
  | nil => rfl
  | cons a l ih =>
    cases hpa : p a with
    | true => simp [List.filter_cons, List.find?_cons, hpa]
    | false => simp [List.filter_cons, List.find?_cons, hpa, ih]

/-- Helper: `find?` over the per-transcript resolutions corresponds to
`find?` over the transcripts that resolve to the given coordinate. -/
theorem find?_filterMap_resolve (base : Int) (c : List Char) (sr : SequenceRange)
    (t₀ : Transcript) :
    ∀ ts : List Transcript,
    ts.find? (fun t => decide (t.chromosome = c ∧ t.nucleotide_index base = some sr))
        = some t₀ →
    (ts.filterMap (resolveItem base)).find? (fun v => coordOf v == (c, sr)) =
      some ⟨t₀.name, if t₀.plus_strand then '+' else '-', t₀.chromosome, sr⟩ := by
  intro ts
  induction ts with
  | nil => intro h; simp at h
  | cons t rest ih =>
    intro h
    rw [List.find?_cons] at h
    cases hpt : decide (t.chromosome = c ∧ t.nucleotide_index base = some sr) with
    | true =>
      rw [hpt] at h
      obtain rfl : t = t₀ := by simpa using h
      obtain ⟨hc, hni⟩ := of_decide_eq_true hpt
      simp only [List.filterMap_cons, resolveItem, hni, Option.map_some']
      rw [List.find?_cons]
      have : (coordOf ⟨t.name, if t.plus_strand then '+' else '-', t.chromosome, sr⟩
          == (c, sr)) = true := by
        simp [coordOf, hc]
      rw [this]
    | false =>
      rw [hpt] at h
      simp only [List.filterMap_cons]
      cases hres : t.nucleotide_index base with
      | none => simp only [resolveItem, hres, Option.map_none']; exact ih h
      | some sr' =>
        simp only [resolveItem, hres, Option.map_some']
        rw [List.find?_cons]
        have hfalse : (coordOf ⟨t.name, if t.plus_strand then '+' else '-',
            t.chromosome, sr'⟩ == (c, sr)) = false := by
          refine beq_eq_false_iff_ne.mpr (fun habs => ?_)
          simp only [coordOf, Prod.mk.injEq] at habs
          have : decide (t.chromosome = c ∧ t.nucleotide_index base = some sr) = true :=
            decide_eq_true ⟨habs.1, by rw [hres, habs.2]⟩
          rw [this] at hpt
          exact absurd hpt (by simp)
        rw [hfalse]
        exact ih h

/-- Helper: every coordinate occurring among the input items also occurs
among the deduplicated output (deduplication drops only repeats). -/
theorem dedupCoords_covers (c : List Char × SequenceRange) :
    ∀ (xs : List ProbeView) (cache : List (List Char × SequenceRange)),
    c ∉ cache → (∃ v ∈ xs, coordOf v = c) →
    ∃ w ∈ dedupCoords cache xs, coordOf w = c := by
  intro xs
  induction xs with
  | nil => intro cache _ h; simp at h
  | cons x xs ih =>
    intro cache hc hex
    by_cases hx : coordOf x ∈ cache
    · simp only [dedupCoords, if_pos hx]
      rcases hex with ⟨v, hv, hvc⟩
      rcases List.mem_cons.mp hv with rfl | hv'
      · exact absurd (hvc ▸ hx) hc
      · exact ih cache hc ⟨v, hv', hvc⟩
    · simp only [dedupCoords, if_neg hx]
      by_cases hxc : coordOf x = c
      · exact ⟨x, List.mem_cons_self _ _, hxc⟩
      · rcases hex with ⟨v, hv, hvc⟩
        rcases List.mem_cons.mp hv with rfl | hv'
        · exact absurd hvc hxc
        · have hc' : c ∉ coordOf x :: cache := by
            simp only [List.mem_cons, not_or]
            exact ⟨fun h => hxc h.symm, hc⟩
          rcases ih _ hc' ⟨v, hv', hvc⟩ with ⟨w, hw, hwc⟩
          exact ⟨w, List.mem_cons_of_mem _ hw, hwc⟩

/-- Helper: restricting the transcript list to those that resolve
successfully does not change the per-transcript resolutions. -/
theorem filterMap_resolve_filter_isSome (base : Int) :
    ∀ ts : List Transcript,
    ((ts.filter (fun t => (t.nucleotide_index base).isSome)).filterMap
        (resolveItem base)) = ts.filterMap (resolveItem base) := by
  intro ts
  induction ts with
  | nil => rfl
  | cons t rest ih =>
    cases hni : t.nucleotide_index base with
    | none =>
      simp only [List.filter_cons, hni, Option.isSome_none, List.filterMap_cons,
        resolveItem, Option.map_none']
      exact ih
    | some sr =>
      simp only [List.filter_cons, hni, Option.isSome_some, List.filterMap_cons,
        resolveItem, Option.map_some']
      rw [← ih]
      simp [List.filterMap_cons, resolveItem, hni]

/-- C3: when a gene resolves to two or more transcripts mapping to the same
`(chromosome, index)` coordinate pair, `explode` emits exactly one probe for
that coordinate — the filtered projection is a singleton — and that probe's
transcript metadata (name, strand) is that of the first such transcript in
the iteration order yielded by the annotation lookup. -/
theorem explode_dedup_first_wins
    (st : List Char) (pspec : ParsedSpec) (rows : List AnnRow)
    (c : List Char) (sr : SequenceRange) (t₀ : Transcript)
    (hparse : _parse st = some pspec)
    (hfind : (lookup_gene pspec.gene rows).find?
        (fun t => decide (t.chromosome = c ∧ t.nucleotide_index pspec.base = some sr))
        = some t₀)
    (htwo : 2 ≤ ((lookup_gene pspec.gene rows).filter
        (fun t => decide (t.chromosome = c ∧ t.nucleotide_index pspec.base = some sr))).length) :
    ∃ probes diags, explode st (some rows) = some (probes, diags) ∧
      (probes.map proj).filter (fun v => coordOf v == (c, sr)) =
        [⟨t₀.name, if t₀.plus_strand then '+' else '-', t₀.chromosome, sr⟩] := by
  refine ⟨(explodeGo st pspec pspec.mutation [] (lookup_gene pspec.gene rows)).1,
          (explodeGo st pspec pspec.mutation [] (lookup_gene pspec.gene rows)).2, ?_, ?_⟩
  · simp [explode, hparse]
  · rw [explodeGo_fst_map_proj,
      dedupCoords_filter_take (c, sr) _ [] (List.not_mem_nil _),
      filter_take_one_eq_find,
      find?_filterMap_resolve pspec.base c sr t₀ _ hfind]
    rfl

/-- Witness for C3: two plus-strand transcripts of gene `AB` resolving to
the identical coordinate; the single emitted probe carries the first
transcript's name `T1`. -/
theorem explode_dedup_first_wins_witness :
    ∃ probes diags,
      explode ("AB:c.1A>G/7".toList)
          (some
            [⟨"AB".toList,
              ⟨"T1".toList, "chr1".toList, true,
               fun b => if b = 1 then some ⟨"chr1".toList, 100, 101, false, false⟩ else none⟩⟩,
             ⟨"AB".toList,
              ⟨"T2".toList, "chr1".toList, true,
               fun b => if b = 1 then some ⟨"chr1".toList, 100, 101, false, false⟩ else none⟩⟩])
        = some (probes, diags) ∧
      (probes.map proj).filter
          (fun v => coordOf v == ("chr1".toList, ⟨"chr1".toList, 100, 101, false, false⟩)) =
        [⟨"T1".toList, '+', "chr1".toList, ⟨"chr1".toList, 100, 101, false, false⟩⟩] :=
  explode_dedup_first_wins ("AB:c.1A>G/7".toList)
    ⟨"AB".toList, 1, 'A', ['G'], 7, []⟩
    [⟨"AB".toList,
      ⟨"T1".toList, "chr1".toList, true,
       fun b => if b = 1 then some ⟨"chr1".toList, 100, 101, false, false⟩ else none⟩⟩,
     ⟨"AB".toList,
      ⟨"T2".toList, "chr1".toList, true,
       fun b => if b = 1 then some ⟨"chr1".toList, 100, 101, false, false⟩ else none⟩⟩]
    ("chr1".toList) ⟨"chr1".toList, 100, 101, false, false⟩
    ⟨"T1".toList, "chr1".toList, true,
     fun b => if b = 1 then some ⟨"chr1".toList, 100, 101, false, false⟩ else none⟩
    (by decide) (by rfl) (by rfl)

/-- C6: a transcript whose `nucleotide_index` fails with `OutOfRange` is
skipped with a non-fatal diagnostic naming the transcript and the statement,
it contributes zero probes — the emitted probes are exactly those computed
from the successfully resolving transcripts alone — and every sibling
transcript that resolves successfully still has its coordinate emitted as a
probe. -/
theorem explode_out_of_range_skips_transcript_only
    (st : List Char) (pspec : ParsedSpec) (rows : List AnnRow)
    (hparse : _parse st = some pspec) :
    ∃ probes diags, explode st (some rows) = some (probes, diags) ∧
      (∀ t ∈ lookup_gene pspec.gene rows, t.nucleotide_index pspec.base = none →
        (⟨t.name, st⟩ : Diag) ∈ diags) ∧
      probes.map proj =
        dedupCoords [] (((lookup_gene pspec.gene rows).filter
          (fun t => (t.nucleotide_index pspec.base).isSome)).filterMap
            (resolveItem pspec.base)) ∧
      (∀ t ∈ lookup_gene pspec.gene rows, ∀ sr : SequenceRange,
        t.nucleotide_index pspec.base = some sr →
        ∃ p ∈ probes, p.chromosome = t.chromosome ∧ p.index = sr) := by
  refine ⟨(explodeGo st pspec pspec.mutation [] (lookup_gene pspec.gene rows)).1,
          (explodeGo st pspec pspec.mutation [] (lookup_gene pspec.gene rows)).2,
          ?_, ?_, ?_, ?_⟩
  · simp [explode, hparse]
  · intro t ht hnone
    rw [explodeGo_snd]
    refine List.mem_map_of_mem _ (List.mem_filter.mpr ⟨ht, ?_⟩)
    simp [hnone]
  · rw [explodeGo_fst_map_proj, filterMap_resolve_filter_isSome]
  · intro t ht sr hsr
    have hv : (⟨t.name, if t.plus_strand then '+' else '-', t.chromosome, sr⟩ : ProbeView) ∈
        (lookup_gene pspec.gene rows).filterMap (resolveItem pspec.base) := by
      refine List.mem_filterMap.mpr ⟨t, ht, ?_⟩
      simp [resolveItem, hsr]
    have hcov := dedupCoords_covers (t.chromosome, sr)
      ((lookup_gene pspec.gene rows).filterMap (resolveItem pspec.base)) []
      (List.not_mem_nil _)
      ⟨_, hv, rfl⟩
    rcases hcov with ⟨w, hw, hwc⟩
    rw [← explodeGo_fst_map_proj st pspec (lookup_gene pspec.gene rows) pspec.mutation []] at hw
    rcases List.mem_map.mp hw with ⟨p, hp, rfl⟩
    refine ⟨p, hp, ?_, ?_⟩
    · exact congrArg Prod.fst hwc
    · exact congrArg Prod.snd hwc

/-- Witness for C6: gene `AB` has one transcript failing with `OutOfRange`
and one sibling that resolves; the failing one is reported and contributes
no probe, while the sibling's coordinate is still emitted. -/
theorem explode_out_of_range_skips_transcript_only_witness :
    ∃ probes diags,
      explode ("AB:c.1A>G/7".toList)
          (some
            [⟨"AB".toList, ⟨"TF".toList, "chr1".toList, true, fun _ => none⟩⟩,
             ⟨"AB".toList,
              ⟨"TK".toList, "chr1".toList, true,
               fun b => if b = 1 then some ⟨"chr1".toList, 100, 101, false, false⟩ else none⟩⟩])
        = some (probes, diags) ∧
      (∀ t ∈ lookup_gene (⟨"AB".toList, 1, 'A', ['G'], 7, []⟩ : ParsedSpec).gene
          [⟨"AB".toList, ⟨"TF".toList, "chr1".toList, true, fun _ => none⟩⟩,
           ⟨"AB".toList,
            ⟨"TK".toList, "chr1".toList, true,
             fun b => if b = 1 then some ⟨"chr1".toList, 100, 101, false, false⟩ else none⟩⟩],
        t.nucleotide_index (⟨"AB".toList, 1, 'A', ['G'], 7, []⟩ : ParsedSpec).base = none →
        (⟨t.name, "AB:c.1A>G/7".toList⟩ : Diag) ∈ diags) ∧
      probes.map proj =
        dedupCoords []
          (((lookup_gene (⟨"AB".toList, 1, 'A', ['G'], 7, []⟩ : ParsedSpec).gene
              [⟨"AB".toList, ⟨"TF".toList, "chr1".toList, true, fun _ => none⟩⟩,
               ⟨"AB".toList,
                ⟨"TK".toList, "chr1".toList, true,
                 fun b => if b = 1 then some ⟨"chr1".toList, 100, 101, false, false⟩ else none⟩⟩]).filter
            (fun t => (t.nucleotide_index
              (⟨"AB".toList, 1, 'A', ['G'], 7, []⟩ : ParsedSpec).base).isSome)).filterMap
              (resolveItem (⟨"AB".toList, 1, 'A', ['G'], 7, []⟩ : ParsedSpec).base)) ∧
      (∀ t ∈ lookup_gene (⟨"AB".toList, 1, 'A', ['G'], 7, []⟩ : ParsedSpec).gene
          [⟨"AB".toList, ⟨"TF".toList, "chr1".toList, true, fun _ => none⟩⟩,
           ⟨"AB".toList,
            ⟨"TK".toList, "chr1".toList, true,
             fun b => if b = 1 then some ⟨"chr1".toList, 100, 101, false, false⟩ else none⟩⟩],
        ∀ sr : SequenceRange,
        t.nucleotide_index (⟨"AB".toList, 1, 'A', ['G'], 7, []⟩ : ParsedSpec).base = some sr →
        ∃ p ∈ probes, p.chromosome = t.chromosome ∧ p.index = sr) :=
  explode_out_of_range_skips_transcript_only ("AB:c.1A>G/7".toList)
    ⟨"AB".toList, 1, 'A', ['G'], 7, []⟩
    [⟨"AB".toList, ⟨"TF".toList, "chr1".toList, true, fun _ => none⟩⟩,
     ⟨"AB".toList,
      ⟨"TK".toList, "chr1".toList, true,
       fun b => if b = 1 then some ⟨"chr1".toList, 100, 101, false, false⟩ else none⟩⟩]
    (by decide)

/-- Helper: when `dropWhile` stops at a character inside `l`, appending a
suffix does not change where it stops. -/
theorem dropWhile_append_cons (p : Char → Bool) :
    ∀ (l : List Char) {c : Char} {r : List Char} (j : List Char),
    l.dropWhile p = c :: r → (l ++ j).dropWhile p = c :: (r ++ j) := by
  intro l
  induction l with
  | nil => intro c r j h; simp [List.dropWhile] at h
  | cons a t ih =>
    intro c r j h
    rw [List.dropWhile_cons] at h
    cases hpa : p a with
    | true =>
      rw [hpa] at h
      simp only [if_pos rfl] at h
      simpa [List.cons_append, List.dropWhile_cons, hpa] using ih j h
    | false =>
      rw [hpa] at h
      simp only [Bool.false_eq_true, if_neg] at h
      obtain ⟨rfl, rfl⟩ := List.cons.inj h
      simp [List.cons_append, List.dropWhile_cons, hpa]

/-- Helper: when `dropWhile` stops inside `l`, `takeWhile` over the appended
list captures exactly the same token. -/
theorem takeWhile_append_stop (p : Char → Bool) :
    ∀ (l : List Char) {c : Char} {r : List Char} (j : List Char),
    l.dropWhile p = c :: r → (l ++ j).takeWhile p = l.takeWhile p := by
  intro l
  induction l with
  | nil => intro c r j h; simp [List.dropWhile] at h
  | cons a t ih =>
    intro c r j h
    rw [List.dropWhile_cons] at h
    cases hpa : p a with
    | true =>
      rw [hpa] at h
      simp only [if_pos rfl] at h
      simp only [List.cons_append, List.takeWhile_cons, hpa, if_pos rfl]
      rw [ih j h]
    | false =>
      simp [List.cons_append, List.takeWhile_cons, hpa]

/-- Helper: the list consumed by a successful `expectCh` starts with the
expected character. -/
theorem expectCh_some_eq {ch : Char} {x rest : List Char}
    (h : expectCh ch x = some rest) : x = ch :: rest := by
  cases x with
  | nil => simp [expectCh] at h
  | cons a t =>
    rw [expectCh] at h
    by_cases ha : a = ch
    · rw [if_pos ha] at h
      obtain rfl := Option.some.inj h
      rw [ha]
    · rw [if_neg ha] at h
      exact absurd h (by simp)

/-- Helper: the list consumed by a successful `takeOne` starts with the
taken character, which satisfies the class. -/
theorem takeOne_some_eq {p : Char → Bool} {x : List Char} {y : Char} {rest : List Char}
    (h : takeOne p x = some (y, rest)) : x = y :: rest ∧ p y = true := by
  cases x with
  | nil => simp [takeOne] at h
  | cons a t =>
    cases hpa : p a with
    | true =>
      rw [takeOne, if_pos hpa] at h
      obtain ⟨rfl, rfl⟩ := Prod.mk.inj (Option.some.inj h)
      exact ⟨rfl, hpa⟩
    | false => rw [takeOne, if_neg (by simp [hpa])] at h; exact absurd h (by simp)

/-- Helper: a successful `takeTok`'s input starts with a class character. -/
theorem takeTok_some_cons {p : Char → Bool} {x tok rest : List Char}
    (h : takeTok p x = some (tok, rest)) : ∃ c r, x = c :: r ∧ p c = true := by
  cases x with
  | nil => simp [takeTok] at h
  | cons a t =>
    cases hpa : p a with
    | true => exact ⟨a, t, rfl, hpa⟩
    | false =>
      rw [takeTok] at h
      simp [List.takeWhile_cons, hpa] at h

/-- Helper: a successful `takeTok` whose remainder is nonempty is unchanged
by appending a suffix (the token stops inside the original list). -/
theorem takeTok_append {p : Char → Bool} {x tok rest : List Char} (j : List Char)
    (h : takeTok p x = some (tok, rest)) (hne : rest ≠ []) :
    takeTok p (x ++ j) = some (tok, rest ++ j) := by
  rw [takeTok] at h
  by_cases he : (x.takeWhile p).isEmpty
  · rw [if_pos he] at h; exact absurd h (by simp)
  · rw [if_neg he] at h
    obtain ⟨htok, hrest⟩ := Prod.mk.inj (Option.some.inj h)
    obtain ⟨c, r, hcr⟩ := List.exists_cons_of_ne_nil hne
    have hdrop : x.dropWhile p = c :: r := by rw [hrest, hcr]
    rw [takeTok, takeWhile_append_stop p x j hdrop, if_neg he,
      dropWhile_append_cons p x j hdrop, htok, hcr]
    rfl

/-- Helper: a successful `takeTok` stays successful after appending a
suffix (the captured token may grow). -/
theorem takeTok_append_isSome {p : Char → Bool} {x : List Char} (j : List Char)
    (h : (takeTok p x).isSome) : (takeTok p (x ++ j)).isSome := by
  rw [Option.isSome_iff_exists] at h
  obtain ⟨⟨tok, rest⟩, hx⟩ := h
  obtain ⟨c, r, rfl, hpc⟩ := takeTok_some_cons hx
  rw [List.cons_append, takeTok]
  simp [List.takeWhile_cons, hpc]

/-- Helper: the statement grammar is prefix-only — appending any suffix to
an accepted input leaves it accepted (the regex has no end anchor and
`re.match` matches a prefix). -/
theorem matchStatement_append {l : List Char} (j : List Char)
    (h : (matchStatement l).isSome) : (matchStatement (l ++ j)).isSome := by
  rw [Option.isSome_iff_exists] at h
  obtain ⟨g, hg⟩ := h
  simp only [matchStatement, Option.bind_eq_bind, Option.bind_eq_some, Option.pure_def,
    Option.some.injEq] at hg
  obtain ⟨⟨gene, l1⟩, h1, hg⟩ := hg
  obtain ⟨l2, h2, hg⟩ := hg
  obtain ⟨l3, h3, hg⟩ := hg
  obtain ⟨l4, h4, hg⟩ := hg
  obtain ⟨⟨d1, l5⟩, h5, hg⟩ := hg
  obtain ⟨⟨ref, l6⟩, h6, hg⟩ := hg
  obtain ⟨l7, h7, hg⟩ := hg
  obtain ⟨⟨mletter, l8⟩, h8, hg⟩ := hg
  obtain ⟨l9, h9, hg⟩ := hg
  obtain ⟨⟨d2, l10⟩, h10, hg⟩ := hg
  have hl1 : l1.dropWhile isWsChar = ':' :: l2 := expectCh_some_eq h2
  have hl2 : l2.dropWhile isWsChar = 'c' :: l3 := expectCh_some_eq h3
  have hl3 : l3 = '.' :: l4 := expectCh_some_eq h4
  obtain ⟨hl5, href⟩ := takeOne_some_eq h6
  have hl6 : l6.dropWhile isWsChar = '>' :: l7 := expectCh_some_eq h7
  obtain ⟨hl7, hmletter⟩ := takeOne_some_eq h8
  have hl8 : l8.dropWhile isWsChar = '/' :: l9 := expectCh_some_eq h9
  obtain ⟨c0, r0, hc0, _⟩ := takeTok_some_cons h1
  have hA0 : (l ++ j).dropWhile isWsChar = (l.dropWhile isWsChar) ++ j := by
    rw [dropWhile_append_cons isWsChar l j hc0, hc0]; rfl
  have hne1 : l1 ≠ [] := by
    intro he; rw [he] at hl1; simp [List.dropWhile] at hl1
  have hA1 : takeTok isGeneChar ((l.dropWhile isWsChar) ++ j) = some (gene, l1 ++ j) :=
    takeTok_append j h1 hne1
  have hA2 : expectCh ':' ((l1 ++ j).dropWhile isWsChar) = some (l2 ++ j) := by
    rw [dropWhile_append_cons isWsChar l1 j hl1]
    simp [expectCh]
  have hA3 : expectCh 'c' ((l2 ++ j).dropWhile isWsChar) = some (l3 ++ j) := by
    rw [dropWhile_append_cons isWsChar l2 j hl2]
    simp [expectCh]
  have hA4 : expectCh '.' (l3 ++ j) = some (l4 ++ j) := by
    rw [hl3]
    simp [expectCh]
  have hne5 : l5 ≠ [] := by
    intro he; rw [he] at hl5; simp [List.dropWhile] at hl5
  have hA5 : takeTok isDigitChar (l4 ++ j) = some (d1, l5 ++ j) :=
    takeTok_append j h5 hne5
  have hA6 : takeOne isBaseLetter ((l5 ++ j).dropWhile isWsChar) = some (ref, l6 ++ j) := by
    rw [dropWhile_append_cons isWsChar l5 j hl5]
    simp [takeOne, href]
  have hA7 : expectCh '>' ((l6 ++ j).dropWhile isWsChar) = some (l7 ++ j) := by
    rw [dropWhile_append_cons isWsChar l6 j hl6]
    simp [expectCh]
  have hA8 : takeOne isBaseLetter ((l7 ++ j).dropWhile isWsChar) = some (mletter, l8 ++ j) := by
    rw [dropWhile_append_cons isWsChar l7 j hl7]
    simp [takeOne, hmletter]
  have hA9 : expectCh '/' ((l8 ++ j).dropWhile isWsChar) = some (l9 ++ j) := by
    rw [dropWhile_append_cons isWsChar l8 j hl8]
    simp [expectCh]
  obtain ⟨c9, r9, hc9, _⟩ := takeTok_some_cons h10
  have hA9s : (l9 ++ j).dropWhile isWsChar = (l9.dropWhile isWsChar) ++ j := by
    rw [dropWhile_append_cons isWsChar l9 j hc9, hc9]; rfl
  have h10s : (takeTok isDigitChar ((l9.dropWhile isWsChar) ++ j)).isSome :=
    takeTok_append_isSome j (by rw [h10]; rfl)
  obtain ⟨⟨d2x, l10x⟩, hA10⟩ := Option.isSome_iff_exists.mp h10s
  rw [Option.isSome_iff_exists]
  refine ⟨⟨gene, d1, ref, mletter, d2x, commentOf (l10x.dropWhile isWsChar)⟩, ?_⟩
  simp only [matchStatement, Option.bind_eq_bind, Option.bind_eq_some, Option.pure_def,
    Option.some.injEq]
  refine ⟨(gene, l1 ++ j), by rw [hA0]; exact hA1, ?_⟩
  refine ⟨l2 ++ j, hA2, ?_⟩
  refine ⟨l3 ++ j, hA3, ?_⟩
  refine ⟨l4 ++ j, hA4, ?_⟩
  refine ⟨(d1, l5 ++ j), hA5, ?_⟩
  refine ⟨(ref, l6 ++ j), hA6, ?_⟩
  refine ⟨l7 ++ j, hA7, ?_⟩
  refine ⟨(mletter, l8 ++ j), hA8, ?_⟩
  refine ⟨l9 ++ j, hA9, ?_⟩
  refine ⟨(d2x, l10x), by rw [hA9s]; exact hA10, rfl⟩

/-- Counterexample for C5: extra tokens after the statement that are neither
a `--` comment nor trailing whitespace do NOT cause a parse failure — the
regex is applied with `re.match` and has no end anchor, so `_parse` accepts
`ABC:c.100A>G/50 junk`. -/
theorem grammar_accepts_trailing_tokens_counterexample :
    (_parse ("ABC:c.100A>G/50 junk".toList)).isSome = true := by decide

/-- C5 (amended): the gene SNP grammar either yields a `ParsedSpec` or fails
(`InvalidStatement`); deviations before the end of the `/bases` field — a
missing `c.` marker, a two-letter reference base, a missing `/bases` suffix,
a non-digit where a digit is expected — are hard parse failures, but text
after a successfully matched statement never causes failure: appending any
suffix to an accepted statement leaves it accepted (prefix-only matching). -/
theorem grammar_rejects_and_prefix_matches :
    (∀ (l j : List Char), (_parse l).isSome → (_parse (l ++ j)).isSome) ∧
    _parse ("ABC:100A>G/50".toList) = none ∧
    _parse ("ABC:c.100AA>G/50".toList) = none ∧
    _parse ("ABC:c.100A>G".toList) = none ∧
    _parse ("ABC:c.xA>G/50".toList) = none := by
  refine ⟨?_, by decide, by decide, by decide, by decide⟩
  intro l j h
  have h' : (matchStatement l).isSome := by
    simpa [_parse] using h
  have h2 := matchStatement_append j h'
  simpa [_parse] using h2

/-- Witness for C5's amended theorem: an accepted statement stays accepted
with arbitrary trailing text appended. -/
theorem grammar_rejects_and_prefix_matches_witness :
    (_parse (("ABC:c.100A>G/50".toList) ++ (" extra, tokens!".toList))).isSome :=
  grammar_rejects_and_prefix_matches.1 ("ABC:c.100A>G/50".toList)
    (" extra, tokens!".toList) (by decide)
